import Mathlib

/-!
Verification of the FluxRipper development-loop controller
(`tools/devloop/fluxripper_dev.py` and `tools/devloop/rtl_tools.py`).

The Python code is shallowly embedded: pure fragments become Lean
functions; effectful fragments (serial transport, background worker
threads, the persisted cache file) are modelled by explicit state
passing, oracle functions for the external world, and step functions
over explicit state types.  Machine integers are modelled by Nat / Int
(Python integers are unbounded, so no wrap-around is needed).
-/

namespace FluxRipper

/-! ## Test framework (class TestRunner, fluxripper_dev.py)

The enum TestResult and the dataclass TestCase are taken directly from
the source.  A test function is a Python callable that either returns a
TestResult or raises; its behaviour during one run is modelled by the
FnOutcome field below.  The float timeout field only matters for
run_quick, which no modelled operation uses, so it is omitted. -/

inductive TestResult where
  | PASS
  | FAIL
  | SKIP
  | ERROR
deriving DecidableEq, Repr

/-- Behaviour of a Python test callable when invoked: it returns a
TestResult or raises an exception. -/
inductive FnOutcome where
  | returns (r : TestResult)
  | raises
deriving DecidableEq, Repr

structure TestCase where
  name : String
  description : String
  layer_required : Int
  test_fn : FnOutcome
deriving DecidableEq, Repr

/-- A Python dict from test name to TestResult, modelled as an
association list in insertion order (the field self.results). -/
abbrev ResultMap := List (String × TestResult)

/-- Python dict assignment d[k] = v: overwrite in place when the key is
present, append otherwise. -/
def mapInsert (m : ResultMap) (k : String) (v : TestResult) : ResultMap :=
  if m.any (fun p => p.1 = k) then
    m.map (fun p => if p.1 = k then (k, v) else p)
  else
    m ++ [(k, v)]

/-- Python dict lookup d.get(k). -/
def mapGet (m : ResultMap) (k : String) : Option TestResult :=
  (m.find? (fun p => p.1 = k)).map (fun p => p.2)

/-- Result of one run_all invocation: the results dict after the run,
the indices of the tests whose test_fn was invoked, and the record
events self.results[test.name] = outcome performed during this run
(index, name, outcome), in order. -/
structure RunAllState where
  results : ResultMap
  called : List Nat
  records : List (Nat × String × TestResult)
deriving DecidableEq, Repr

/-- Loop body of TestRunner.run_all: for each registered test, in order,
first the layer gate (layer_required > current_layer records SKIP and
moves on without invoking the test function), then the min_layer filter
(which records nothing), and otherwise the invocation, with an exception
mapped to ERROR.  current_layer is the value of console.get_layer()
queried once at run start.  The Nat argument is the index of the head
test in the registration list. -/
def run_all_aux (current_layer min_layer : Int) :
    Nat → List TestCase → ResultMap → RunAllState
  | _, [], res => { results := res, called := [], records := [] }
  | i, t :: rest, res =>
    if t.layer_required > current_layer then
      let s := run_all_aux current_layer min_layer (i + 1) rest
        (mapInsert res t.name TestResult.SKIP)
      { s with records := (i, t.name, TestResult.SKIP) :: s.records }
    else if t.layer_required < min_layer then
      run_all_aux current_layer min_layer (i + 1) rest res
    else
      let outcome := match t.test_fn with
        | FnOutcome.returns r => r
        | FnOutcome.raises => TestResult.ERROR
      let s := run_all_aux current_layer min_layer (i + 1) rest
        (mapInsert res t.name outcome)
      { s with called := i :: s.called,
               records := (i, t.name, outcome) :: s.records }

/-- TestRunner.run_all(min_layer): iterates the registered tests over
the persistent results dict res0 and returns self.results. -/
def run_all (tests : List TestCase) (res0 : ResultMap)
    (current_layer min_layer : Int) : RunAllState :=
  run_all_aux current_layer min_layer 0 tests res0

/-! ### Helper lemmas for run_all -/

theorem run_all_aux_records_skip (current_layer min_layer : Int) :
    ∀ (tests : List TestCase) (i0 k : Nat) (t : TestCase) (res : ResultMap),
      tests.get? k = some t →
      t.layer_required > current_layer →
      (i0 + k, t.name, TestResult.SKIP) ∈
        (run_all_aux current_layer min_layer i0 tests res).records := by
  intro tests
  induction tests with
  | nil => intro i0 k t res h; simp at h
  | cons hd tl ih =>
    intro i0 k t res hget hgt
    cases k with
    | zero =>
      simp only [List.get?] at hget
      cases hget
      simp only [run_all_aux, hgt, if_pos]
      simp
    | succ k' =>
      simp only [List.get?] at hget
      have hmem := ih (i0 + 1) k' t
      simp only [run_all_aux]
      by_cases h1 : hd.layer_required > current_layer
      · simp only [h1, if_pos]
        have := hmem (mapInsert res hd.name TestResult.SKIP) hget hgt
        have harith : i0 + 1 + k' = i0 + (k' + 1) := by omega
        rw [harith] at this
        simp [this]
      · simp only [h1, if_neg, if_false]
        by_cases h2 : hd.layer_required < min_layer
        · simp only [h2, if_pos]
          have := hmem res hget hgt
          have harith : i0 + 1 + k' = i0 + (k' + 1) := by omega
          rw [harith] at this
          exact this
        · simp only [h2, if_neg, if_false]
          have := hmem (mapInsert res hd.name
            (match hd.test_fn with
              | FnOutcome.returns r => r
              | FnOutcome.raises => TestResult.ERROR)) hget hgt
          have harith : i0 + 1 + k' = i0 + (k' + 1) := by omega
          rw [harith] at this
          simp [this]

theorem run_all_aux_called_spec (current_layer min_layer : Int) :
    ∀ (tests : List TestCase) (i0 : Nat) (res : ResultMap) (j : Nat),
      j ∈ (run_all_aux current_layer min_layer i0 tests res).called →
      ∃ k t, tests.get? k = some t ∧ j = i0 + k ∧
        ¬ (t.layer_required > current_layer) ∧
        ¬ (t.layer_required < min_layer) := by
  intro tests
  induction tests with
  | nil => intro i0 res j h; simp [run_all_aux] at h
  | cons hd tl ih =>
    intro i0 res j hmem
    simp only [run_all_aux] at hmem
    by_cases h1 : hd.layer_required > current_layer
    · simp only [h1, if_pos] at hmem
      obtain ⟨k, t, hget, hj, hc⟩ := ih (i0 + 1) _ j hmem
      exact ⟨k + 1, t, by simpa using hget, by omega, hc⟩
    · simp only [h1, if_neg, if_false] at hmem
      by_cases h2 : hd.layer_required < min_layer
      · simp only [h2, if_pos] at hmem
        obtain ⟨k, t, hget, hj, hc⟩ := ih (i0 + 1) _ j hmem
        exact ⟨k + 1, t, by simpa using hget, by omega, hc⟩
      · simp only [h2, if_neg, if_false] at hmem
        simp only [List.mem_cons] at hmem
        rcases hmem with hj | hmem
        · exact ⟨0, hd, by simp, by omega, h1, h2⟩
        · obtain ⟨k, t, hget, hj, hc⟩ := ih (i0 + 1) _ j hmem
          exact ⟨k + 1, t, by simpa using hget, by omega, hc⟩

/-- C1: a registered test whose layer_required exceeds the layer queried
at the start of run_all gets SKIP recorded for it and its test function
is never invoked during the run. -/
theorem layer_gate_skips (tests : List TestCase) (res0 : ResultMap)
    (current_layer min_layer : Int) (i : Nat) (t : TestCase)
    (hget : tests.get? i = some t)
    (hgt : t.layer_required > current_layer) :
    (i, t.name, TestResult.SKIP) ∈
        (run_all tests res0 current_layer min_layer).records ∧
      i ∉ (run_all tests res0 current_layer min_layer).called := by
  constructor
  · have := run_all_aux_records_skip current_layer min_layer tests 0 i t res0 hget hgt
    simpa [run_all] using this
  · intro hmem
    obtain ⟨k, t', hget', hj, hngt, _⟩ :=
      run_all_aux_called_spec current_layer min_layer tests 0 res0 i hmem
    have hk : k = i := by omega
    subst hk
    rw [hget] at hget'
    cases hget'
    exact hngt hgt

/-- Concrete test case used by witnesses: requires layer 5, passes when
invoked. -/
def sampleTest : TestCase :=
  { name := "t", description := "d", layer_required := 5,
    test_fn := FnOutcome.returns TestResult.PASS }

/-- Witness for layer_gate_skips at a concrete run: one test requiring
layer 5 run with current layer 3 is skipped and never invoked. -/
theorem layer_gate_skips_witness :
    (0, "t", TestResult.SKIP) ∈ (run_all [sampleTest] [] 3 0).records ∧
      0 ∉ (run_all [sampleTest] [] 3 0).called := by
  have h := layer_gate_skips [sampleTest] [] 3 0 0 sampleTest (by decide) (by decide)
  simpa [sampleTest] using h

/-! ### Persistence of the results dict across runs (C5) -/

theorem mapGet_update_self (k : String) (v : TestResult) :
    ∀ m : ResultMap, m.any (fun p => p.1 = k) = true →
      mapGet (m.map (fun p => if p.1 = k then (k, v) else p)) k = some v := by
  intro m
  induction m with
  | nil => intro h; simp at h
  | cons hd tl ih =>
    intro h
    by_cases hk : hd.1 = k
    · simp [mapGet, List.find?, hk]
    · simp only [List.any_cons, Bool.or_eq_true, decide_eq_true_eq, hk,
        false_or] at h
      have hdk : (decide (hd.1 = k)) = false := by simp [hk]
      simp only [List.map_cons, if_neg hk, mapGet, List.find?, hdk]
      exact ih h

theorem mapGet_update_ne (k n : String) (v : TestResult) (hne : k ≠ n) :
    ∀ m : ResultMap,
      mapGet (m.map (fun p => if p.1 = k then (k, v) else p)) n = mapGet m n := by
  intro m
  induction m with
  | nil => simp [mapGet]
  | cons hd tl ih =>
    by_cases hk : hd.1 = k
    · have h1 : (decide ((k, v).1 = n)) = false := by simp [hne]
      have h2 : (decide (hd.1 = n)) = false := by
        simp only [decide_eq_false_iff_not]; rw [hk]; exact hne
      simp only [List.map_cons, if_pos hk, mapGet, List.find?, h1, h2]
      exact ih
    · simp only [List.map_cons, if_neg hk, mapGet, List.find?]
      cases hdeq : decide (hd.1 = n) <;> simp only [hdeq]
      exact ih

theorem mapGet_push_self (k : String) (v : TestResult) :
    ∀ m : ResultMap, m.any (fun p => p.1 = k) = false →
      mapGet (m ++ [(k, v)]) k = some v := by
  intro m
  induction m with
  | nil => simp [mapGet, List.find?]
  | cons hd tl ih =>
    intro h
    simp only [List.any_cons, Bool.or_eq_false_iff, decide_eq_false_iff_not] at h
    have hdk : (decide (hd.1 = k)) = false := by simp [h.1]
    simp only [List.cons_append, mapGet, List.find?, hdk]
    exact ih (by simpa using h.2)

theorem mapGet_push_ne (k n : String) (v : TestResult) (hne : k ≠ n) :
    ∀ m : ResultMap, mapGet (m ++ [(k, v)]) n = mapGet m n := by
  intro m
  induction m with
  | nil => simp [mapGet, List.find?, hne]
  | cons hd tl ih =>
    simp only [List.cons_append, mapGet, List.find?]
    cases hdeq : decide (hd.1 = n) <;> simp only [hdeq]
    exact ih

theorem mapGet_mapInsert_self (m : ResultMap) (k : String) (v : TestResult) :
    mapGet (mapInsert m k v) k = some v := by
  unfold mapInsert
  cases h : m.any (fun p => p.1 = k) with
  | true => simp only [if_pos]; exact mapGet_update_self k v m h
  | false => simp only [Bool.false_eq_true, if_neg, if_false]
             exact mapGet_push_self k v m h

theorem mapGet_mapInsert_ne (m : ResultMap) (k n : String) (v : TestResult)
    (hne : k ≠ n) : mapGet (mapInsert m k v) n = mapGet m n := by
  unfold mapInsert
  cases h : m.any (fun p => p.1 = k) with
  | true => simp only [if_pos]; exact mapGet_update_ne k n v hne m
  | false => simp only [Bool.false_eq_true, if_neg, if_false]
             exact mapGet_push_ne k n v hne m

theorem mapGet_mapInsert_isSome (m : ResultMap) (k n : String) (v w : TestResult)
    (h : mapGet m n = some w) : ∃ u, mapGet (mapInsert m k v) n = some u := by
  by_cases hk : k = n
  · subst hk; exact ⟨v, mapGet_mapInsert_self m k v⟩
  · exact ⟨w, by rw [mapGet_mapInsert_ne m k n v hk]; exact h⟩

theorem run_all_aux_unrecorded (current_layer min_layer : Int) :
    ∀ (tests : List TestCase) (i0 : Nat) (res : ResultMap) (n : String),
      (∀ e ∈ (run_all_aux current_layer min_layer i0 tests res).records,
          e.2.1 ≠ n) →
      mapGet (run_all_aux current_layer min_layer i0 tests res).results n =
        mapGet res n := by
  intro tests
  induction tests with
  | nil => intro i0 res n _; simp [run_all_aux]
  | cons hd tl ih =>
    intro i0 res n hrec
    simp only [run_all_aux] at hrec ⊢
    by_cases h1 : hd.layer_required > current_layer
    · simp only [h1, if_pos] at hrec ⊢
      have hname : hd.name ≠ n := by
        have := hrec (i0, hd.name, TestResult.SKIP) (by simp)
        simpa using this
      rw [ih (i0 + 1) _ n (fun e he => hrec e (by simp [he]))]
      exact mapGet_mapInsert_ne _ _ _ _ hname
    · simp only [h1, if_neg, if_false] at hrec ⊢
      by_cases h2 : hd.layer_required < min_layer
      · simp only [h2, if_pos] at hrec ⊢
        exact ih (i0 + 1) _ n hrec
      · simp only [h2, if_neg, if_false] at hrec ⊢
        have hname : hd.name ≠ n := by
          have := hrec (i0, hd.name,
            (match hd.test_fn with
              | FnOutcome.returns r => r
              | FnOutcome.raises => TestResult.ERROR)) (by simp)
          simpa using this
        rw [ih (i0 + 1) _ n (fun e he => hrec e (by simp [he]))]
        exact mapGet_mapInsert_ne _ _ _ _ hname

theorem run_all_aux_keys_kept (current_layer min_layer : Int) :
    ∀ (tests : List TestCase) (i0 : Nat) (res : ResultMap) (n : String)
      (w : TestResult),
      mapGet res n = some w →
      ∃ u, mapGet (run_all_aux current_layer min_layer i0 tests res).results n
            = some u := by
  intro tests
  induction tests with
  | nil => intro i0 res n w h; exact ⟨w, by simpa [run_all_aux] using h⟩
  | cons hd tl ih =>
    intro i0 res n w h
    simp only [run_all_aux]
    by_cases h1 : hd.layer_required > current_layer
    · simp only [h1, if_pos]
      obtain ⟨u, hu⟩ := mapGet_mapInsert_isSome res hd.name n TestResult.SKIP w h
      exact ih (i0 + 1) _ n u hu
    · simp only [h1, if_neg, if_false]
      by_cases h2 : hd.layer_required < min_layer
      · simp only [h2, if_pos]
        exact ih (i0 + 1) _ n w h
      · simp only [h2, if_neg, if_false]
        obtain ⟨u, hu⟩ := mapGet_mapInsert_isSome res hd.name n _ w h
        exact ih (i0 + 1) _ n u hu

/-- Concrete test case used by the counterexample for the ephemerality
of results: requires layer 0, passes when invoked. -/
def layerZeroTest : TestCase :=
  { name := "t", description := "d", layer_required := 0,
    test_fn := FnOutcome.returns TestResult.PASS }

/-- C5 counterexample: run_all returns the persistent results field, so
an outcome recorded by an earlier run can appear in a later run's
returned mapping.  One test with layer_required 0 is recorded PASS by a
first run (min_layer 0, layer 5); a second run with min_layer 1 records
nothing at all, yet its returned mapping still holds that PASS. -/
theorem run_all_results_carry_over :
    (run_all [layerZeroTest]
        (run_all [layerZeroTest] [] 5 0).results 5 1).records = [] ∧
      mapGet (run_all [layerZeroTest]
        (run_all [layerZeroTest] [] 5 0).results 5 1).results "t" =
        some TestResult.PASS := by
  decide

/-- C5 amended: run_all returns the accumulated persistent results
mapping.  A name for which this run performed no record keeps exactly
the value it had before the run, and no key present before the run is
ever removed, so outcomes of earlier runs are carried into the returned
mapping for tests not recorded this run. -/
theorem run_all_results_accumulate (tests : List TestCase) (res0 : ResultMap)
    (current_layer min_layer : Int) :
    (∀ n : String,
        (∀ e ∈ (run_all tests res0 current_layer min_layer).records, e.2.1 ≠ n) →
        mapGet (run_all tests res0 current_layer min_layer).results n =
          mapGet res0 n)
    ∧ (∀ n w, mapGet res0 n = some w →
        ∃ u, mapGet (run_all tests res0 current_layer min_layer).results n
              = some u) := by
  constructor
  · intro n hrec
    exact run_all_aux_unrecorded current_layer min_layer tests 0 res0 n hrec
  · intro n w h
    exact run_all_aux_keys_kept current_layer min_layer tests 0 res0 n w h

/-- Witness for run_all_results_accumulate: a run that records nothing
under the name "x" leaves the pre-run entry for "x" unchanged. -/
theorem run_all_results_accumulate_witness :
    mapGet (run_all [sampleTest] [("x", TestResult.FAIL)] 3 0).results "x" =
      mapGet [("x", TestResult.FAIL)] "x" :=
  (run_all_results_accumulate [sampleTest] [("x", TestResult.FAIL)] 3 0).1 "x"
    (by decide)

/-! ## Console protocol engine (class CDCConsole, fluxripper_dev.py)

Python strings are modelled as lists of characters.  CDCConsole.send
writes the command to the serial transport and then polls the reader
thread's response queue with a 100 ms per-item timeout against a 2 s
absolute deadline.  A poll either yields a line (some) or raises
queue.Empty (none).  The absolute deadline is modelled as the number of
loop iterations it allows (fuel); each iteration consumes one poll
event and some time, and expiry of the deadline is the exhaustion of
the fuel. -/

abbrev Line := List Char

abbrev PollEvent := Option Line

/-- Test line.startswith of a one-character marker: true exactly when
the line is nonempty and its first character is that marker. -/
def lineStartsWith (marker : Char) : Line → Bool
  | [] => false
  | c :: _ => c = marker

/-- Collection loop of CDCConsole.send: while the deadline has not
passed, poll the queue; a prompt line (one starting with the greater-
than character) ends collection and is not returned; an Empty poll
collects nothing; any other line is appended to the responses. -/
def collectResponses : Nat → List PollEvent → List Line
  | 0, _ => []
  | _ + 1, [] => []
  | fuel + 1, none :: rest => collectResponses fuel rest
  | fuel + 1, some line :: rest =>
    if lineStartsWith '>' line then []
    else line :: collectResponses fuel rest

/-- Input to one CDCConsole.send call: whether self.serial is open, the
command text, the poll events the queue will deliver after the command
is written, and the number of polls the absolute deadline allows. -/
structure SendInput where
  serialOpen : Bool
  command : Line
  events : List PollEvent
  fuel : Nat

/-- Observable effects of one CDCConsole.send call: the returned
response lines and the bytes written to the transport, if any. -/
structure SendOutput where
  responses : List Line
  written : Option Line
deriving DecidableEq, Repr

/-- CDCConsole.send: returns the empty list immediately when
self.serial is None; otherwise drains stale queue entries, writes the
command followed by CR-LF, and runs the collection loop.  The model is
a total function, so the disconnected path can neither block nor
raise. -/
def send (inp : SendInput) : SendOutput :=
  if inp.serialOpen then
    { responses := collectResponses inp.fuel inp.events,
      written := some (inp.command ++ ['\r', '\n']) }
  else
    { responses := [], written := none }

/-- C2: while disconnected, send returns the empty response list and
writes nothing to the transport. -/
theorem send_disconnected (inp : SendInput) (h : inp.serialOpen = false) :
    (send inp).responses = [] ∧ (send inp).written = none := by
  simp [send, h]

/-- Witness for send_disconnected at a concrete disconnected call. -/
theorem send_disconnected_witness :
    (send { serialOpen := false, command := ['s'],
            events := [some ['x']], fuel := 20 }).responses = [] ∧
      (send { serialOpen := false, command := ['s'],
              events := [some ['x']], fuel := 20 }).written = none :=
  send_disconnected _ rfl

/-- C7: the collection loop of send, on an open transport, stops at the
first prompt line and excludes it from the result (first conjunct), and
returns exactly the lines collected so far when the deadline expires
before any prompt line arrives (second conjunct); in neither case is an
error raised (send is a total function). -/
theorem send_collection_loop :
    (∀ (cmd : Line) (fuel : Nat) (pre : List PollEvent) (p : Line)
        (rest : List PollEvent),
      lineStartsWith '>' p = true →
      (∀ o ∈ pre, ∀ l, o = some l → lineStartsWith '>' l = false) →
      pre.length < fuel →
      (send { serialOpen := true, command := cmd,
              events := pre ++ some p :: rest, fuel := fuel }).responses =
        pre.filterMap id)
    ∧ (∀ (cmd : Line) (fuel : Nat) (events : List PollEvent),
      (∀ o ∈ events.take fuel, ∀ l, o = some l → lineStartsWith '>' l = false) →
      (send { serialOpen := true, command := cmd,
              events := events, fuel := fuel }).responses =
        (events.take fuel).filterMap id) := by
  constructor
  · intro cmd fuel pre p rest hp hpre hlen
    simp only [send, if_pos]
    clear cmd
    induction pre generalizing fuel with
    | nil =>
      cases fuel with
      | zero => omega
      | succ f => simp [collectResponses, hp]
    | cons o pre' ih =>
      cases fuel with
      | zero => omega
      | succ f =>
        cases o with
        | none =>
          simp only [List.cons_append, collectResponses]
          rw [show (pre'.append (some p :: rest)) = pre' ++ some p :: rest from rfl,
            ih f (fun o ho l hl => hpre o (List.mem_cons_of_mem _ ho) l hl)
              (by simp only [List.length_cons] at hlen; omega)]
          simp
        | some l =>
          have hl : lineStartsWith '>' l = false := hpre (some l) (by simp) l rfl
          simp only [List.cons_append, collectResponses, hl, Bool.false_eq_true,
            if_neg, if_false]
          rw [show (pre'.append (some p :: rest)) = pre' ++ some p :: rest from rfl,
            ih f (fun o ho l hl => hpre o (List.mem_cons_of_mem _ ho) l hl)
              (by simp only [List.length_cons] at hlen; omega)]
          simp
  · intro cmd fuel events hns
    simp only [send, if_pos]
    clear cmd
    induction events generalizing fuel with
    | nil => cases fuel <;> simp [collectResponses]
    | cons o rest ih =>
      cases fuel with
      | zero => simp [collectResponses]
      | succ f =>
        cases o with
        | none =>
          simp only [collectResponses, List.take_succ_cons, List.filterMap_cons]
          exact ih f (fun o ho l hl => hns o (by simp [ho]) l hl)
        | some l =>
          have hl : lineStartsWith '>' l = false :=
            hns (some l) (by simp [List.take_succ_cons]) l rfl
          simp only [collectResponses, hl, Bool.false_eq_true, if_neg, if_false,
            List.take_succ_cons, List.filterMap_cons]
          rw [ih f (fun o ho l hl => hns o (by simp [List.take_succ_cons, ho]) l hl)]
          rfl

/-- Witness for send_collection_loop: a prompt after two lines stops
collection (first conjunct at fuel 5), and a three-poll deadline over a
promptless queue returns the two collected lines (second conjunct). -/
theorem send_collection_loop_witness :
    (send { serialOpen := true, command := ['s'],
            events := [some ['a'], none, some ['b'], some ['>'], some ['c']],
            fuel := 5 }).responses = [['a'], ['b']] ∧
      (send { serialOpen := true, command := ['s'],
              events := [some ['a'], none, some ['b']],
              fuel := 3 }).responses = [['a'], ['b']] := by
  constructor
  · have h := send_collection_loop.1 ['s'] 5 [some ['a'], none, some ['b']]
      ['>'] [some ['c']] (by decide) (by decide) (by decide)
    simpa using h
  · have h := send_collection_loop.2 ['s'] 3 [some ['a'], none, some ['b']]
      (by decide)
    simpa using h

/-! ## RTL build orchestrator (class RTLBuilder, fluxripper_dev.py)

The RTLBuilder instance is modelled by its observable state: the polled
build_status string, liveness of the background worker thread, the
completion event bitstream_ready, and an instrumentation counter of
worker threads started.  The worker body runs between two observable
transitions: its first statement sets build_status to "running", and
its completion sets one of the terminal statuses and ends the thread. -/

/-- Outcome of the external toolchain invocation as observed by
RTLBuilder._build_worker: exit 0, non-zero exit, subprocess timeout, or
any other exception carrying its text. -/
inductive BuildOutcome where
  | success
  | failed
  | timeout
  | error (msg : String)
deriving DecidableEq, Repr

structure RTLBuilderState where
  build_status : String
  workerAlive : Bool
  bitstream_ready : Bool
  threads_started : Nat
deriving DecidableEq, Repr

/-- RTLBuilder.__init__: status "idle", no worker thread, completion
event clear. -/
def rtlInit : RTLBuilderState :=
  { build_status := "idle", workerAlive := false, bitstream_ready := false,
    threads_started := 0 }

/-- RTLBuilder.start_build: when the previous worker thread is still
alive, print a warning and return without touching anything; otherwise
clear bitstream_ready and start a new worker thread. -/
def start_build (s : RTLBuilderState) : RTLBuilderState :=
  if s.workerAlive then s
  else { s with bitstream_ready := false, workerAlive := true,
                threads_started := s.threads_started + 1 }

/-- First statement of RTLBuilder._build_worker: build_status is set to
"running". -/
def worker_begin (s : RTLBuilderState) : RTLBuilderState :=
  { s with build_status := "running" }

/-- Completion of RTLBuilder._build_worker: exit 0 sets "success" and
the completion event, non-zero exit sets "failed", TimeoutExpired sets
"timeout", any other exception sets "error: " followed by its text;
in every case the worker thread then terminates. -/
def worker_finish (r : BuildOutcome) (s : RTLBuilderState) : RTLBuilderState :=
  match r with
  | BuildOutcome.success =>
      { s with build_status := "success", bitstream_ready := true,
               workerAlive := false }
  | BuildOutcome.failed =>
      { s with build_status := "failed", workerAlive := false }
  | BuildOutcome.timeout =>
      { s with build_status := "timeout", workerAlive := false }
  | BuildOutcome.error m =>
      { s with build_status := "error: " ++ m, workerAlive := false }

/-- Observable transitions of an RTLBuilder instance after
construction. -/
inductive RTLEvent where
  | startBuild
  | workerBegin
  | workerFinish (r : BuildOutcome)

/-- One observable step: worker transitions only act while the worker
thread is alive. -/
def rtlStep (s : RTLBuilderState) : RTLEvent → RTLBuilderState
  | RTLEvent.startBuild => start_build s
  | RTLEvent.workerBegin => if s.workerAlive then worker_begin s else s
  | RTLEvent.workerFinish r => if s.workerAlive then worker_finish r s else s

/-- State of an RTLBuilder after any sequence of observable steps from
construction. -/
def rtlRun (events : List RTLEvent) : RTLBuilderState :=
  events.foldl rtlStep rtlInit

/-- Statuses an RTLBuilder can actually hold. -/
def rtlStatusOk (st : String) : Prop :=
  st = "idle" ∨ st = "running" ∨ st = "success" ∨ st = "failed" ∨
    st = "timeout" ∨ ∃ m, st = "error: " ++ m

theorem rtlStep_preserves_status (s : RTLBuilderState) (e : RTLEvent)
    (h : rtlStatusOk s.build_status) : rtlStatusOk (rtlStep s e).build_status := by
  cases e with
  | startBuild =>
    simp only [rtlStep, start_build]
    by_cases hw : s.workerAlive <;> simp [hw, h]
  | workerBegin =>
    simp only [rtlStep]
    by_cases hw : s.workerAlive
    · simp only [hw, if_pos, worker_begin]
      right; left; rfl
    · simpa [hw] using h
  | workerFinish r =>
    simp only [rtlStep]
    by_cases hw : s.workerAlive
    · simp only [hw, if_pos]
      cases r with
      | success => simp [worker_finish, rtlStatusOk]
      | failed => simp [worker_finish, rtlStatusOk]
      | timeout => simp [worker_finish, rtlStatusOk]
      | error m => simp only [worker_finish]
                   right; right; right; right; right; exact ⟨m, rfl⟩
    · simpa [hw] using h

/-- C4 amended: at every point in an RTLBuilder's lifetime, the
build_status field holds one of idle, running, success, failed,
timeout, or a string of the form "error: " followed by the exception
text.  (The spec's seven-value set is wrong for this class: the worker
publishes "running", never "syncing" or "building", and the error state
embeds the message.) -/
theorem rtl_build_status_values (events : List RTLEvent) :
    rtlStatusOk (rtlRun events).build_status := by
  suffices h : ∀ (evs : List RTLEvent) (s : RTLBuilderState),
      rtlStatusOk s.build_status →
      rtlStatusOk ((evs.foldl rtlStep s).build_status) by
    exact h events rtlInit (Or.inl rfl)
  intro evs
  induction evs with
  | nil => intro s hs; simpa using hs
  | cons e rest ih =>
    intro s hs
    simp only [List.foldl_cons]
    exact ih (rtlStep s e) (rtlStep_preserves_status s e hs)

/-- C4 counterexample: right after start_build spawns the worker and
the worker begins, build_status is "running", which is not one of the
seven values the claim allows. -/
theorem rtl_build_status_outside_seven :
    (rtlRun [RTLEvent.startBuild, RTLEvent.workerBegin]).build_status =
        "running" ∧
      "running" ∉ ["idle", "syncing", "building", "success", "failed",
        "timeout", "error"] := by
  constructor
  · rfl
  · decide

/-- C9: calling start_build while the worker started by a previous call
is still alive changes nothing at all (in particular the completion
event is not cleared and no second worker thread starts), so a pair of
calls whose first call finds no live worker starts exactly one worker
between them. -/
theorem start_build_in_flight_noop :
    (∀ s : RTLBuilderState, s.workerAlive = true →
      rtlStep s RTLEvent.startBuild = s)
    ∧ (∀ s : RTLBuilderState, s.workerAlive = false →
      (rtlStep s RTLEvent.startBuild).workerAlive = true ∧
        rtlStep (rtlStep s RTLEvent.startBuild) RTLEvent.startBuild =
          rtlStep s RTLEvent.startBuild ∧
        (rtlStep s RTLEvent.startBuild).threads_started =
          s.threads_started + 1) := by
  constructor
  · intro s h; simp [rtlStep, start_build, h]
  · intro s h
    refine ⟨by simp [rtlStep, start_build, h], ?_, by simp [rtlStep, start_build, h]⟩
    simp [rtlStep, start_build, h]

/-- Witness for start_build_in_flight_noop: from the freshly
constructed builder, the first start_build starts one worker and an
immediate second call is a no-op. -/
theorem start_build_in_flight_noop_witness :
    rtlStep (rtlStep rtlInit RTLEvent.startBuild) RTLEvent.startBuild =
        rtlStep rtlInit RTLEvent.startBuild ∧
      (rtlStep rtlInit RTLEvent.startBuild).threads_started =
        rtlInit.threads_started + 1 :=
  ⟨(start_build_in_flight_noop.2 rtlInit rfl).2.1,
   (start_build_in_flight_noop.2 rtlInit rfl).2.2⟩

/-! ## Block write (CDCConsole.write_block, fluxripper_dev.py)

write_block converts the byte sequence into 32-bit words (4 bytes each,
little-endian, int.from_bytes(chunk, little), the final chunk padded
with zero bytes) and issues one write_memory call per word at addresses
addr, addr + 4, addr + 8, ...  The outcome of each write_memory call is
modelled by an oracle from address and word to success. -/

/-- int.from_bytes(chunk, little): byte list to value, first byte least
significant. -/
def fromBytesLE : List Nat → Nat
  | [] => 0
  | b :: rest => b + 256 * fromBytesLE rest

/-- The padding loop of write_block: while len(chunk) < 4 append a zero
byte. -/
def padChunk (chunk : List Nat) : List Nat :=
  chunk ++ List.replicate (4 - chunk.length) 0

/-- The chunking loop of write_block: data[i:i+4] for i = 0, 4, 8, ...,
each chunk padded to 4 bytes and converted little-endian. -/
def toWords : List Nat → List Nat
  | [] => []
  | b0 :: b1 :: b2 :: b3 :: rest => fromBytesLE [b0, b1, b2, b3] :: toWords rest
  | chunk => [fromBytesLE (padChunk chunk)]

/-- The write loop of write_block over the word list: one write_memory
call per word at addr + i * 4, returning the issued (address, word)
pairs in order together with the boolean result; the first failing
write ends the loop with result False. -/
def writeWords (wm : Nat → Nat → Bool) (addr : Nat) :
    List Nat → Nat → List (Nat × Nat) × Bool
  | [], _ => ([], true)
  | w :: rest, i =>
    if wm (addr + i * 4) w then
      let out := writeWords wm addr rest (i + 1)
      ((addr + i * 4, w) :: out.1, out.2)
    else ([(addr + i * 4, w)], false)

/-- CDCConsole.write_block: chunk, pad, convert, then write each word. -/
def write_block (wm : Nat → Nat → Bool) (addr : Nat) (data : List Nat) :
    List (Nat × Nat) × Bool :=
  writeWords wm addr (toWords data) 0

/-- Expected full write trace: one (address, word) pair per word at
consecutive word addresses. -/
def wordWrites (addr : Nat) (words : List Nat) : List (Nat × Nat) :=
  (List.range words.length).map (fun j => (addr + j * 4, words.getD j 0))

theorem toWords_len : ∀ data : List Nat, data ≠ [] →
    (toWords data).length = (data.length + 3) / 4 := by
  intro data
  induction data using toWords.induct with
  | case1 => intro h; simp at h
  | case2 b0 b1 b2 b3 rest ih =>
    intro _
    by_cases hr : rest = []
    · subst hr; simp [toWords]
    · simp only [toWords, List.length_cons, ih hr]
      omega
  | case3 chunk h1 h2 =>
    intro _
    match chunk, h1, h2 with
    | [c], _, _ => simp [toWords, padChunk]
    | [c, d], _, _ => simp [toWords, padChunk]
    | [c, d, e], _, _ => simp [toWords, padChunk]
    | [], h1, _ => exact absurd rfl h1
    | c :: d :: e :: f :: r, _, h2 => exact absurd rfl (h2 c d e f r)

theorem toWords_get : ∀ (data : List Nat) (j : Nat), j < (toWords data).length →
    (toWords data).getD j 0 = fromBytesLE (padChunk ((data.drop (4 * j)).take 4)) := by
  intro data
  induction data using toWords.induct with
  | case1 => intro j hj; simp [toWords] at hj
  | case2 b0 b1 b2 b3 rest ih =>
    intro j hj
    cases j with
    | zero => simp [toWords, padChunk]
    | succ j' =>
      simp only [toWords, List.length_cons] at hj
      have harith : 4 * (j' + 1) = ((((4 * j') + 1) + 1) + 1) + 1 := by omega
      simp only [toWords, List.getD_cons_succ, harith, List.drop_succ_cons]
      exact ih j' (by omega)
  | case3 chunk h1 h2 =>
    intro j hj
    match chunk, h1, h2 with
    | [c], _, _ =>
      have hj0 : j = 0 := by simp [toWords] at hj; omega
      subst hj0; simp [toWords, padChunk]
    | [c, d], _, _ =>
      have hj0 : j = 0 := by simp [toWords] at hj; omega
      subst hj0; simp [toWords, padChunk]
    | [c, d, e], _, _ =>
      have hj0 : j = 0 := by simp [toWords] at hj; omega
      subst hj0; simp [toWords, padChunk]
    | [], h1, _ => exact absurd rfl h1
    | c :: d :: e :: f :: r, _, h2 => exact absurd rfl (h2 c d e f r)

theorem writeWords_ok_iff (wm : Nat → Nat → Bool) (addr : Nat) :
    ∀ (words : List Nat) (i : Nat),
      (writeWords wm addr words i).2 = true ↔
        ∀ j < words.length, wm (addr + (i + j) * 4) (words.getD j 0) = true := by
  intro words
  induction words with
  | nil => intro i; simp [writeWords]
  | cons w rest ih =>
    intro i
    by_cases hw : wm (addr + i * 4) w
    · simp only [writeWords, hw, if_pos]
      rw [ih (i + 1)]
      constructor
      · intro h j hj
        cases j with
        | zero => simpa using hw
        | succ j' =>
          have := h j' (by simpa using hj)
          simp only [List.getD_cons_succ]
          have harith : i + (j' + 1) = i + 1 + j' := by omega
          rw [harith]; exact this
      · intro h j hj
        have := h (j + 1) (by simpa using hj)
        simp only [List.getD_cons_succ] at this
        have harith : i + 1 + j = i + (j + 1) := by omega
        rw [harith]; exact this
    · simp only [writeWords, hw, Bool.false_eq_true, if_neg, if_false]
      constructor
      · intro h; exact absurd h (by simp)
      · intro h
        have := h 0 (by simp)
        simp only [List.getD_cons_zero, Nat.add_zero] at this
        exact absurd this hw

theorem writeWords_trace_ok (wm : Nat → Nat → Bool) (addr : Nat) :
    ∀ (words : List Nat) (i : Nat),
      (∀ j < words.length, wm (addr + (i + j) * 4) (words.getD j 0) = true) →
      (writeWords wm addr words i).1 =
        (List.range words.length).map (fun j => (addr + (i + j) * 4, words.getD j 0)) := by
  intro words
  induction words with
  | nil => intro i _; simp [writeWords]
  | cons w rest ih =>
    intro i h
    have hw : wm (addr + i * 4) w = true := by simpa using h 0 (by simp)
    simp only [writeWords, hw, if_pos]
    rw [ih (i + 1) (fun j hj => by
      have := h (j + 1) (by simpa using hj)
      simp only [List.getD_cons_succ] at this
      have harith : i + 1 + j = i + (j + 1) := by omega
      rw [harith]; exact this)]
    simp only [List.length_cons, List.range_succ_eq_map, List.map_cons,
      List.map_map]
    congr 1
    apply List.map_congr_left
    intro a _
    simp only [Function.comp_apply, Nat.succ_eq_add_one, List.getD_cons_succ]
    have harith : i + 1 + a = i + (a + 1) := by omega
    rw [harith]

theorem writeWords_trace_fail (wm : Nat → Nat → Bool) (addr : Nat) :
    ∀ (words : List Nat) (i k : Nat), k < words.length →
      (∀ j < k, wm (addr + (i + j) * 4) (words.getD j 0) = true) →
      wm (addr + (i + k) * 4) (words.getD k 0) = false →
      (writeWords wm addr words i).2 = false ∧
        (writeWords wm addr words i).1 =
          ((List.range words.length).map
            (fun j => (addr + (i + j) * 4, words.getD j 0))).take (k + 1) := by
  intro words
  induction words with
  | nil => intro i k hk; simp at hk
  | cons w rest ih =>
    intro i k hk hpre hfail
    cases k with
    | zero =>
      simp only [List.getD_cons_zero, Nat.add_zero] at hfail
      simp only [writeWords, hfail, Bool.false_eq_true, if_neg, if_false]
      refine ⟨by simp, ?_⟩
      simp only [List.length_cons, List.range_succ_eq_map, List.map_cons]
      simp
    | succ k' =>
      have hw : wm (addr + i * 4) w = true := by simpa using hpre 0 (by omega)
      simp only [writeWords, hw, if_pos]
      have hfail' : wm (addr + (i + 1 + k') * 4) (rest.getD k' 0) = false := by
        simp only [List.getD_cons_succ] at hfail
        have harith : i + 1 + k' = i + (k' + 1) := by omega
        rw [harith]; exact hfail
      have hpre' : ∀ j < k', wm (addr + (i + 1 + j) * 4) (rest.getD j 0) = true := by
        intro j hj
        have := hpre (j + 1) (by omega)
        simp only [List.getD_cons_succ] at this
        have harith : i + 1 + j = i + (j + 1) := by omega
        rw [harith]; exact this
      obtain ⟨h2, h1⟩ := ih (i + 1) k' (by simpa using hk) hpre' hfail'
      refine ⟨h2, ?_⟩
      rw [h1]
      simp only [List.length_cons, List.range_succ_eq_map, List.map_cons,
        List.map_map, List.take_succ_cons]
      congr 1
      congr 1
      apply List.map_congr_left
      intro a _
      simp only [Function.comp_apply, Nat.succ_eq_add_one, List.getD_cons_succ]
      have harith : i + 1 + a = i + (a + 1) := by omega
      rw [harith]

/-- C6: write_block splits the byte sequence into consecutive 4-byte
little-endian words with the final partial word zero-padded (first two
conjuncts), issues exactly one word write per word at addr, addr + 4,
addr + 8, ... when every write succeeds and returns True exactly when
every word write succeeds (third and fourth conjuncts), and at the
first failing word write returns False having issued only the writes
up to and including the failing one (fifth conjunct). -/
theorem write_block_spec (wm : Nat → Nat → Bool) (addr : Nat) (data : List Nat)
    (hne : data ≠ []) :
    (toWords data).length = (data.length + 3) / 4
    ∧ (∀ j < (toWords data).length,
        (toWords data).getD j 0 =
          fromBytesLE (padChunk ((data.drop (4 * j)).take 4)))
    ∧ ((write_block wm addr data).2 = true ↔
        ∀ j < (toWords data).length,
          wm (addr + j * 4) ((toWords data).getD j 0) = true)
    ∧ ((write_block wm addr data).2 = true →
        (write_block wm addr data).1 = wordWrites addr (toWords data))
    ∧ (∀ k < (toWords data).length,
        (∀ j < k, wm (addr + j * 4) ((toWords data).getD j 0) = true) →
        wm (addr + k * 4) ((toWords data).getD k 0) = false →
        (write_block wm addr data).2 = false ∧
          (write_block wm addr data).1 =
            (wordWrites addr (toWords data)).take (k + 1)) := by
  refine ⟨toWords_len data hne, toWords_get data, ?_, ?_, ?_⟩
  · rw [write_block, writeWords_ok_iff]
    constructor
    · intro h j hj; have := h j hj; simpa using this
    · intro h j hj; have := h j hj; simpa using this
  · intro h
    rw [write_block, writeWords_trace_ok wm addr (toWords data) 0 (by
      rw [write_block, writeWords_ok_iff] at h
      intro j hj; exact h j hj)]
    unfold wordWrites
    apply List.map_congr_left
    intro j _
    simp
  · intro k hk hpre hfail
    have := writeWords_trace_fail wm addr (toWords data) 0 k hk
      (fun j hj => by simpa using hpre j hj) (by simpa using hfail)
    refine ⟨this.1, ?_⟩
    rw [write_block, this.2]
    unfold wordWrites
    congr 1
    apply List.map_congr_left
    intro j _
    simp

/-- Witness for write_block_spec on five bytes with an oracle accepting
every write: two words are written, the second zero-padded. -/
theorem write_block_spec_witness :
    ([1, 2, 3, 4, 5] : List Nat) ≠ [] ∧
      (write_block (fun _ _ => true) 64 [1, 2, 3, 4, 5]).2 = true := by
  have h := write_block_spec (fun _ _ => true) 64 [1, 2, 3, 4, 5] (by decide)
  exact ⟨by decide, by
    rw [h.2.2.1]
    intro j hj
    rfl⟩

/-! ## Change detection (rtl_tools.py)

scan_rtl_modules builds a dict from module name (file stem) to an
RTLModule record; get_changed_modules compares the scanned hashes with
the persisted cache (a JSON object mapping name to hash, read as empty
when the cache file does not exist).  The scanned dict is modelled as a
list of RTLModule values in iteration order, the cache as an
association list. -/

structure RTLModule where
  name : String
  dependencies : List String
  hash : String
deriving DecidableEq, Repr

abbrev HashCache := List (String × String)

/-- Lookup in the parsed cache JSON object: some hash when the name is
a key, none when it is absent (including the cache-file-missing case,
modelled by the empty cache). -/
def cacheLookup (cache : HashCache) (k : String) : Option String :=
  (cache.find? (fun p => p.1 == k)).map (fun p => p.2)

/-- Loop body condition of get_changed_modules: a module is changed
when its name is not in the previous hashes or the recorded hash
differs from its current hash. -/
def moduleChanged (cache : HashCache) (m : RTLModule) : Bool :=
  !(cacheLookup cache m.name == some m.hash)

/-- get_changed_modules: append the name of every changed module, in
iteration order. -/
def get_changed_modules (modules : List RTLModule) (cache : HashCache) :
    List String :=
  (modules.filter (moduleChanged cache)).map (fun m => m.name)

/-- save_module_cache: the persisted object maps each scanned module
name to its current hash. -/
def save_module_cache (modules : List RTLModule) : HashCache :=
  modules.map (fun m => (m.name, m.hash))

theorem mem_get_changed_modules (modules : List RTLModule) (cache : HashCache)
    (n : String) :
    n ∈ get_changed_modules modules cache ↔
      ∃ m ∈ modules, m.name = n ∧ cacheLookup cache n ≠ some m.hash := by
  unfold get_changed_modules moduleChanged
  simp only [List.mem_map, List.mem_filter, Bool.not_eq_eq_eq_not, Bool.not_true,
    beq_eq_false_iff_ne, ne_eq]
  constructor
  · rintro ⟨m, ⟨hm, hch⟩, hname⟩
    exact ⟨m, hm, hname, by rw [← hname]; exact hch⟩
  · rintro ⟨m, hm, hname, hch⟩
    exact ⟨m, ⟨hm, by rw [hname]; exact hch⟩, hname⟩

/-- C3: membership in the changed list is exactly "scanned with a name
absent from the cache or a hash differing from the cached one" (first
conjunct); the changed list is empty iff every scanned module's hash
equals its cached hash (second conjunct); deleted modules, present only
in the cache, are never reported (third conjunct); the changed set does
not depend on scan order (fourth conjunct); and replacing the hash of
the single module named tgt leaves the membership of every other name
unchanged while tgt's membership is decided by the new hash alone
(fifth conjunct). -/
theorem get_changed_modules_spec :
    (∀ (modules : List RTLModule) (cache : HashCache) (n : String),
      n ∈ get_changed_modules modules cache ↔
        ∃ m ∈ modules, m.name = n ∧ cacheLookup cache n ≠ some m.hash)
    ∧ (∀ (modules : List RTLModule) (cache : HashCache),
      get_changed_modules modules cache = [] ↔
        ∀ m ∈ modules, cacheLookup cache m.name = some m.hash)
    ∧ (∀ (modules : List RTLModule) (cache : HashCache) (n : String),
      n ∈ get_changed_modules modules cache → ∃ m ∈ modules, m.name = n)
    ∧ (∀ (modules₁ modules₂ : List RTLModule) (cache : HashCache) (n : String),
      modules₁.Perm modules₂ →
      (n ∈ get_changed_modules modules₁ cache ↔
        n ∈ get_changed_modules modules₂ cache))
    ∧ (∀ (modules : List RTLModule) (cache : HashCache) (tgt h' : String),
      (∀ k, k ≠ tgt →
        (k ∈ get_changed_modules
            (modules.map (fun m =>
              if m.name = tgt then { m with hash := h' } else m)) cache ↔
          k ∈ get_changed_modules modules cache))
      ∧ (tgt ∈ get_changed_modules
            (modules.map (fun m =>
              if m.name = tgt then { m with hash := h' } else m)) cache ↔
          (∃ m ∈ modules, m.name = tgt) ∧ cacheLookup cache tgt ≠ some h')) := by
  refine ⟨mem_get_changed_modules, ?_, ?_, ?_, ?_⟩
  · intro modules cache
    unfold get_changed_modules moduleChanged
    simp only [List.map_eq_nil_iff, List.filter_eq_nil_iff, Bool.not_eq_eq_eq_not,
      Bool.not_true, beq_eq_false_iff_ne, ne_eq, not_not]
  · intro modules cache n hmem
    obtain ⟨m, hm, hname, _⟩ := (mem_get_changed_modules modules cache n).mp hmem
    exact ⟨m, hm, hname⟩
  · intro modules₁ modules₂ cache n hperm
    rw [mem_get_changed_modules, mem_get_changed_modules]
    constructor
    · rintro ⟨m, hm, hrest⟩; exact ⟨m, hperm.mem_iff.mp hm, hrest⟩
    · rintro ⟨m, hm, hrest⟩; exact ⟨m, hperm.mem_iff.mpr hm, hrest⟩
  · intro modules cache tgt h'
    constructor
    · intro k hk
      rw [mem_get_changed_modules, mem_get_changed_modules]
      constructor
      · rintro ⟨m', hm', hname, hch⟩
        simp only [List.mem_map] at hm'
        obtain ⟨m, hm, hmap⟩ := hm'
        by_cases ht : m.name = tgt
        · rw [if_pos ht] at hmap
          subst hmap
          simp only at hname
          exact absurd (hname ▸ ht) hk
        · rw [if_neg ht] at hmap
          subst hmap
          exact ⟨m, hm, hname, hch⟩
      · rintro ⟨m, hm, hname, hch⟩
        have ht : m.name ≠ tgt := by rw [hname]; exact hk
        refine ⟨m, List.mem_map.mpr ⟨m, hm, by rw [if_neg ht]⟩, hname, hch⟩
    · rw [mem_get_changed_modules]
      constructor
      · rintro ⟨m', hm', hname, hch⟩
        simp only [List.mem_map] at hm'
        obtain ⟨m, hm, hmap⟩ := hm'
        by_cases ht : m.name = tgt
        · rw [if_pos ht] at hmap
          subst hmap
          simp only at hname hch
          exact ⟨⟨m, hm, ht⟩, hch⟩
        · rw [if_neg ht] at hmap
          subst hmap
          exact absurd hname ht
      · rintro ⟨⟨m, hm, hname⟩, hch⟩
        refine ⟨{ m with hash := h' },
          List.mem_map.mpr ⟨m, hm, by rw [if_pos hname]⟩, hname, hch⟩

/-- Witness for get_changed_modules_spec's perm conjunct at a concrete
input: two modules in either order produce the same changed set
membership. -/
theorem get_changed_modules_spec_witness :
    ("a" ∈ get_changed_modules
        [{ name := "a", dependencies := [], hash := "1" },
         { name := "b", dependencies := [], hash := "2" }] [("b", "2")] ↔
      "a" ∈ get_changed_modules
        [{ name := "b", dependencies := [], hash := "2" },
         { name := "a", dependencies := [], hash := "1" }] [("b", "2")]) :=
  get_changed_modules_spec.2.2.2.1
    [{ name := "a", dependencies := [], hash := "1" },
     { name := "b", dependencies := [], hash := "2" }]
    [{ name := "b", dependencies := [], hash := "2" },
     { name := "a", dependencies := [], hash := "1" }]
    [("b", "2")] "a" (List.Perm.swap _ _ _)

/-! ## Smart build (RTLWorkflow.smart_build, rtl_tools.py)

smart_build scans, computes the changed list against the persisted
cache, returns True immediately when nothing changed, runs a quick
simulation check per changed module (aborting on the first failure),
runs the Vivado build, and rewrites the cache file with
save_module_cache only when the build succeeded.  The filesystem scan,
the simulations and the toolchain are modelled by the input record. -/

structure SmartBuildInput where
  modules : List RTLModule
  cache : HashCache
  simOk : String → Bool
  buildOk : Bool

structure SmartBuildOut where
  result : Bool
  cache : HashCache
  saved : Bool

/-- RTLWorkflow.smart_build. -/
def smart_build (inp : SmartBuildInput) : SmartBuildOut :=
  let changed := get_changed_modules inp.modules inp.cache
  if changed.length = 0 then
    { result := true, cache := inp.cache, saved := false }
  else if changed.all inp.simOk then
    if inp.buildOk then
      { result := true, cache := save_module_cache inp.modules, saved := true }
    else
      { result := false, cache := inp.cache, saved := false }
  else
    { result := false, cache := inp.cache, saved := false }

/-- C8: smart_build rewrites the persisted cache only on a successful
build: a rewrite implies the build ran and succeeded (first conjunct),
no rewrite leaves the cache bytes untouched (second conjunct), a failed
build never rewrites and a subsequent scan sees the same changed set
(third conjunct), and a pre-build simulation failure aborts with the
cache untouched (fourth conjunct). -/
theorem smart_build_cache_discipline (inp : SmartBuildInput) :
    ((smart_build inp).saved = true →
      inp.buildOk = true ∧ (smart_build inp).result = true ∧
        (smart_build inp).cache = save_module_cache inp.modules)
    ∧ ((smart_build inp).saved = false → (smart_build inp).cache = inp.cache)
    ∧ (inp.buildOk = false →
      (smart_build inp).saved = false ∧ (smart_build inp).cache = inp.cache ∧
        get_changed_modules inp.modules (smart_build inp).cache =
          get_changed_modules inp.modules inp.cache)
    ∧ ((get_changed_modules inp.modules inp.cache).length ≠ 0 →
      (get_changed_modules inp.modules inp.cache).all inp.simOk = false →
      (smart_build inp).result = false ∧ (smart_build inp).saved = false ∧
        (smart_build inp).cache = inp.cache) := by
  unfold smart_build
  by_cases h0 : (get_changed_modules inp.modules inp.cache).length = 0
  · simp [h0]
  · by_cases hsim : (get_changed_modules inp.modules inp.cache).all inp.simOk
    · by_cases hb : inp.buildOk <;> simp [h0, hsim, hb]
    · simp [h0, hsim]

/-- Witness for smart_build_cache_discipline: a failed build over one
changed module leaves the cache untouched. -/
theorem smart_build_cache_discipline_witness :
    (smart_build { modules := [{ name := "a", dependencies := [], hash := "1" }],
                   cache := [], simOk := fun _ => true,
                   buildOk := false }).saved = false ∧
      (smart_build { modules := [{ name := "a", dependencies := [], hash := "1" }],
                     cache := [], simOk := fun _ => true,
                     buildOk := false }).cache = [] := by
  have h := (smart_build_cache_discipline
    { modules := [{ name := "a", dependencies := [], hash := "1" }],
      cache := [], simOk := fun _ => true, buildOk := false }).2.2.1 rfl
  exact ⟨h.1, h.2.1⟩

/-! ## Register read and bring-up layer (CDCConsole, fluxripper_dev.py)

CDCConsole.read_memory sends "dbg r addr" and parses the joined
response text: when it starts with "OK:" the text between the first and
second colon is stripped and parsed as hexadecimal with Python's
int(s, 16); any parse failure yields None.  get_layer reads the status
word and masks its low 4 bits, with None mapped to -1.  Python's
int(s, 16) strips surrounding whitespace and accepts an optional sign
before the hex digits; that grammar is modelled here (its further
conveniences, the 0x prefix and digit-grouping underscores, never
change whether some value is produced for the strings this protocol
can emit and are left out). -/

/-- Characters str.strip and int(s, 16) treat as whitespace. -/
def isPySpace (c : Char) : Bool :=
  c = ' ' ∨ c = '\t' ∨ c = '\n' ∨ c = '\r' ∨ c = '\x0b' ∨ c = '\x0c'

/-- str.strip: drop whitespace from both ends. -/
def trimChars (cs : Line) : Line :=
  ((cs.dropWhile isPySpace).reverse.dropWhile isPySpace).reverse

/-- str.split of a colon separator: always at least one group, one
extra group per separator occurrence. -/
def splitOnColon : Line → List Line
  | [] => [[]]
  | c :: rest =>
    if c = ':' then [] :: splitOnColon rest
    else
      match splitOnColon rest with
      | g :: gs => (c :: g) :: gs
      | [] => [[c]]

/-- Value of one hexadecimal digit character, if it is one. -/
def hexDigitVal? (c : Char) : Option Nat :=
  if '0' ≤ c ∧ c ≤ '9' then some (c.toNat - '0'.toNat)
  else if 'a' ≤ c ∧ c ≤ 'f' then some (c.toNat - 'a'.toNat + 10)
  else if 'A' ≤ c ∧ c ≤ 'F' then some (c.toNat - 'A'.toNat + 10)
  else none

/-- Accumulating hexadecimal evaluation; fails at the first non-digit. -/
def hexDigitsAcc : Nat → Line → Option Nat
  | acc, [] => some acc
  | acc, c :: rest =>
    match hexDigitVal? c with
    | some d => hexDigitsAcc (acc * 16 + d) rest
    | none => none

/-- Nonempty all-hex-digit character list to its value. -/
def hexNatOfChars : Line → Option Nat
  | [] => none
  | cs => hexDigitsAcc 0 cs

/-- Python int(s, 16): strip, optional sign, hex digits; none models
the ValueError path swallowed by read_memory's bare except. -/
def pyIntHex (cs : Line) : Option Int :=
  match trimChars cs with
  | '-' :: rest => (hexNatOfChars rest).map (fun n => -(n : Int))
  | '+' :: rest => (hexNatOfChars rest).map (fun n => (n : Int))
  | t => (hexNatOfChars t).map (fun n => (n : Int))

/-- response.startswith of the "OK:" marker. -/
def startsWithOKColon : Line → Bool
  | 'O' :: 'K' :: ':' :: _ => true
  | _ => false

/-- CDCConsole.read_memory applied to the joined response text of the
underlying send: None for a response that does not start with "OK:"
(including the empty response of a closed transport or an expired
deadline) and for an unparseable hex field. -/
def read_memory (response : Line) : Option Int :=
  if startsWithOKColon response then
    match (splitOnColon response).get? 1 with
    | some part => pyIntHex part
    | none => none
  else none

/-- CDCConsole.get_layer: low 4 bits of the status word, -1 when the
read produced no value.  Python's value & 0xF equals value % 16 (the
Euclidean remainder) for every integer. -/
def get_layer (response : Line) : Int :=
  match read_memory response with
  | some value => value % 16
  | none => -1

/-- C10: get_layer returns -1 exactly when the underlying read yields
no value (first conjunct); on a parsed value it returns the low 4 bits,
always within 0..15 (second conjunct); hence its result is always in
the set -1, 0..15 (third conjunct); and a run started at layer -1 gates
out every test with non-negative layer_required as SKIP without
invoking it, rather than raising (fourth conjunct). -/
theorem get_layer_spec :
    (∀ response : Line, (get_layer response = -1 ↔ read_memory response = none))
    ∧ (∀ (response : Line) (v : Int), read_memory response = some v →
        get_layer response = v % 16 ∧ 0 ≤ v % 16 ∧ v % 16 ≤ 15)
    ∧ (∀ response : Line, get_layer response = -1 ∨
        (0 ≤ get_layer response ∧ get_layer response ≤ 15))
    ∧ (∀ (tests : List TestCase) (res0 : ResultMap) (min_layer : Int)
        (i : Nat) (t : TestCase),
        tests.get? i = some t → 0 ≤ t.layer_required →
        (i, t.name, TestResult.SKIP) ∈ (run_all tests res0 (-1) min_layer).records ∧
          i ∉ (run_all tests res0 (-1) min_layer).called) := by
  have hbounds : ∀ v : Int, 0 ≤ v % 16 ∧ v % 16 ≤ 15 := by
    intro v
    have h1 : 0 ≤ v % 16 := Int.emod_nonneg v (by norm_num)
    have h2 : v % 16 < 16 := Int.emod_lt_of_pos v (by norm_num)
    omega
  refine ⟨?_, ?_, ?_, ?_⟩
  · intro response
    cases h : read_memory response with
    | none => simp [get_layer, h]
    | some v =>
      simp only [get_layer, h]
      have := hbounds v
      constructor
      · intro hc; omega
      · intro hc; cases hc
  · intro response v h
    simp only [get_layer, h]
    exact ⟨by simp, hbounds v⟩
  · intro response
    cases h : read_memory response with
    | none => left; simp [get_layer, h]
    | some v => right; simp only [get_layer, h]; exact hbounds v
  · intro tests res0 min_layer i t hget hnonneg
    have hgt : t.layer_required > (-1 : Int) := by omega
    constructor
    · have := run_all_aux_records_skip (-1) min_layer tests 0 i t res0 hget hgt
      simpa [run_all] using this
    · intro hmem
      obtain ⟨k, t', hget', hj, hngt, _⟩ :=
        run_all_aux_called_spec (-1) min_layer tests 0 res0 i hmem
      have hk : k = i := by omega
      subst hk
      rw [hget] at hget'
      cases hget'
      exact hngt hgt

/-- Witness for get_layer_spec: the response text "OK:2a" parses to 42
and yields layer 10, and a failed read (empty response) gates a
layer-0 test out of a concrete run as SKIP. -/
theorem get_layer_spec_witness :
    (read_memory ['O', 'K', ':', '2', 'a'] = some 42 ∧
      get_layer ['O', 'K', ':', '2', 'a'] = 42 % 16) ∧
      ((0, "t", TestResult.SKIP) ∈ (run_all [layerZeroTest] [] (-1) 0).records ∧
        0 ∉ (run_all [layerZeroTest] [] (-1) 0).called) := by
  constructor
  · refine ⟨by decide, ?_⟩
    exact (get_layer_spec.2.1 ['O', 'K', ':', '2', 'a'] 42 (by decide)).1
  · exact get_layer_spec.2.2.2 [layerZeroTest] [] 0 0 layerZeroTest
      (by decide) (by decide)

end FluxRipper
